import Mathlib

/-!
# Verification of the UDPtransfer protocol implementation

A shallow embedding of the wire codec, window arithmetic, sender and
receiver per-connection state machines, and the broker scheduling queue
of the UDPtransfer repository, together with theorems settling the
specification claims.

Conventions of the embedding:
* byte buffers are `List Nat` with each byte below 256;
* `u16`/`u32` machine integers are `Nat` with explicit `% 65536` /
  `% 4294967296` wherever the Rust code wraps;
* Rust panics (failed `expect`/`unwrap`, out-of-bounds slice indexing,
  `debug_assert!` failures, and arithmetic overflow of the debug build)
  are modelled as `Option.none`;
* `BTreeMap` is modelled as an association list accessed through
  `mapLookup` / `mapInsert` / `mapRemove`, which is faithful because the
  source only uses keyed access (`contains_key` / `get` / `insert` /
  `remove`) on these maps.
-/

namespace UDP

/-- Wraparound distance from `a` to `b` in u16 space: the number of
increments (mod 2^16) needed to walk from `a` to `b`.  This is
`(b - a) mod 2^16` of the specification. -/
def wdist (a b : Nat) : Nat := (b + 65536 - a) % 65536

/-! ## Association-list model of `BTreeMap` -/

/-- Lookup of a key, as `BTreeMap::get` / `contains_key`. -/
def mapLookup {α : Type} (m : List (Nat × α)) (k : Nat) : Option α :=
  match m with
  | [] => none
  | (k2, v) :: rest => if k2 = k then some v else mapLookup rest k

/-- Removal of a key, as `BTreeMap::remove`. -/
def mapRemove {α : Type} (m : List (Nat × α)) (k : Nat) : List (Nat × α) :=
  match m with
  | [] => []
  | (k2, v) :: rest => if k2 = k then mapRemove rest k else (k2, v) :: mapRemove rest k

/-- Insertion of a key, as `BTreeMap::insert` (replaces any previous value). -/
def mapInsert {α : Type} (m : List (Nat × α)) (k : Nat) (v : α) : List (Nat × α) :=
  (k, v) :: mapRemove m k

/-! ## Packet data model (src/src/packet) -/

/-- Packet flag, from `src/src/packet/enums.rs`. -/
inductive Flag where
  | None
  | Init
  | Data
  | Error
  | End
deriving DecidableEq, Repr

/-- `Flag::value` from `src/src/packet/enums.rs`. -/
def Flag.value : Flag → Nat
  | .None => 0x0
  | .Init => 0x1
  | .Data => 0x2
  | .Error => 0x4
  | .End => 0x8

/-- Parse error taxonomy, from `src/src/packet/enums.rs` (`InvalidSize`
carries expected and actual sizes; `ChecksumNotMatch` is the checksum
mismatch; `InvalidFlag` carries the offending byte). -/
inductive ParsingError where
  | InvalidSize (expected actual : Nat)
  | ChecksumNotMatch
  | InvalidFlag (b : Nat)
deriving DecidableEq, Repr

/-- `Flag::from_bin` from `src/src/packet/enums.rs`. -/
def flagFromBin (b : Nat) : Except ParsingError Flag :=
  match b with
  | 0x0 => .ok .None
  | 0x1 => .ok .Init
  | 0x2 => .ok .Data
  | 0x4 => .ok .Error
  | 0x8 => .ok .End
  | _ => .error (.InvalidFlag b)

/-- Packet header (9 bytes on the wire), from `src/src/packet/packet_header.rs`. -/
structure PacketHeader where
  id : Nat
  seq : Nat
  ack : Nat
  flag : Flag
deriving DecidableEq, Repr

structure InitPacket where
  header : PacketHeader
  window_size : Nat
  packet_size : Nat
  checksum_size : Nat
deriving DecidableEq, Repr

structure DataPacket where
  header : PacketHeader
  data : List Nat
deriving DecidableEq, Repr

structure ErrorPacket where
  header : PacketHeader
deriving DecidableEq, Repr

structure EndPacket where
  header : PacketHeader
deriving DecidableEq, Repr

/-- The packet variant, from `src/src/packet/packet.rs`. -/
inductive Packet where
  | Init (p : InitPacket)
  | Data (p : DataPacket)
  | Error (p : ErrorPacket)
  | End (p : EndPacket)
deriving DecidableEq, Repr

/-! ## Big-endian field encoding (`byteorder::NetworkEndian`) -/

/-- `NetworkEndian::write_u16`. -/
def be16 (v : Nat) : List Nat := [v / 256 % 256, v % 256]

/-- `NetworkEndian::write_u32`. -/
def be32 (v : Nat) : List Nat :=
  [v / 16777216 % 256, v / 65536 % 256, v / 256 % 256, v % 256]

/-- `NetworkEndian::read_u16` at a fixed offset. Callers establish the
bounds before reading; the embedding totalises with a default of 0. -/
def readU16 (m : List Nat) (off : Nat) : Nat :=
  m.getD off 0 * 256 + m.getD (off + 1) 0

/-- `NetworkEndian::read_u32` at a fixed offset. -/
def readU32 (m : List Nat) (off : Nat) : Nat :=
  m.getD off 0 * 16777216 + m.getD (off + 1) 0 * 65536 +
    m.getD (off + 2) 0 * 256 + m.getD (off + 3) 0

/-! ## XOR checksum (src/src/packet/packet.rs, lines 121-153) -/

/-- `num_blocks` from `src/src/packet/packet.rs`: number of
`checksum_size`-sized blocks covering `data` bytes (last block may be
partial).  The source divides by `checksum_size`, so it is only invoked
with a positive checksum size. -/
def num_blocks (data checksum_size : Nat) : Nat :=
  if data % checksum_size = 0 then data / checksum_size else data / checksum_size + 1

/-- One step of the `construct_checksum` inner loop:
`checksum.iter_mut().zip(block.iter())` XORs the block into the first
`block.len()` cells of the accumulator and leaves the rest unchanged. -/
def xorInto : List Nat → List Nat → List Nat
  | acc, [] => acc
  | [], _ => []
  | a :: acc, b :: block => (a ^^^ b) :: xorInto acc block

/-- The `for i in 0..blocks` loop of `construct_checksum`: fold the
consecutive `checksum_size`-byte blocks of `data` into the accumulator.
The first argument is the remaining number of blocks. -/
def csumBlocks (checksum_size : Nat) : Nat → List Nat → List Nat → List Nat
  | 0, acc, _ => acc
  | n + 1, acc, data =>
      csumBlocks checksum_size n (xorInto acc (data.take checksum_size)) (data.drop checksum_size)

/-- `construct_checksum` from `src/src/packet/packet.rs`.  The source is
only called with `checksum_size > 0` (both call sites are guarded by
`checksum > 0`); the `checksum_size = 0` case is given the vacuous value
`[]`, the content of a zero-length `vec![0; 0]`. -/
def construct_checksum (data : List Nat) (checksum_size : Nat) : List Nat :=
  if checksum_size = 0 then []
  else csumBlocks checksum_size (num_blocks data.length checksum_size)
    (List.replicate checksum_size 0) data

/-- `checksums_match` from `src/src/packet/packet.rs`: zip the two
checksums and report a mismatching pair. -/
def checksums_match (first second : List Nat) : Bool :=
  match (first.zip second).find? (fun p => p.1 != p.2) with
  | some _ => false
  | none => true

/-- Offset-tracking XOR over one residue class: XOR of the bytes of the
list whose offset (starting at the given origin) is congruent to `i`
modulo `k`. -/
def xorResidueAux (k i : Nat) : Nat → List Nat → Nat
  | _, [] => 0
  | off, b :: rest =>
      if off % k = i then b ^^^ xorResidueAux k i (off + 1) rest
      else xorResidueAux k i (off + 1) rest

/-- The specification's description of the XOR fold, written from its
words: byte `i` of the checksum is "the XOR of all bytes at offsets
congruent to `i` mod `k`".  Used to check that `construct_checksum`
(translated from the source's block loop) computes exactly this. -/
def xorResidue (k i : Nat) (data : List Nat) : Nat := xorResidueAux k i 0 data

/-! ## Packet encoding (`to_bin` / `to_bin_buff`) -/

/-- `PacketHeader::to_bin_buff` from `src/src/packet/packet_header.rs`:
big-endian id, seq, ack, then the flag byte. -/
def PacketHeader.to_bin (h : PacketHeader) : List Nat :=
  be32 h.id ++ be16 h.seq ++ be16 h.ack ++ [h.flag.value]

/-- The body bytes written by `ToBin::to_bin_buff` for each variant
(`src/src/packet/init_packet.rs`, `data_packet.rs`, `error_packet.rs`,
`end_packet.rs`).  `none` models a panic: for `Init`,
`bin_size` asserts `header.bin_size() + 6 < packet_size` (debug build),
the u16 subtraction `packet_size - checksum_size` overflows when
`checksum_size > packet_size`, and the field/padding writes index past
the buffer when `packet_size - checksum_size < 15`. -/
def Packet.body : Packet → Option (List Nat)
  | .Init p =>
      if 9 + 6 < p.packet_size ∧ p.checksum_size ≤ p.packet_size then
        if p.packet_size - p.checksum_size < 15 then none
        else some (p.header.to_bin ++ be16 p.window_size ++ be16 p.packet_size ++
          be16 p.checksum_size ++ List.replicate (p.packet_size - p.checksum_size - 15) 0)
      else none
  | .Data p => some (p.header.to_bin ++ p.data)
  | .Error p => some p.header.to_bin
  | .End p => some p.header.to_bin

/-- `Packet::to_bin` from `src/src/packet/packet.rs`: serialize the body
and append a `checksum`-byte XOR fold of it when `checksum > 0`. -/
def Packet.to_bin (p : Packet) (checksum : Nat) : Option (List Nat) :=
  (Packet.body p).map (fun body =>
    body ++ (if checksum > 0 then construct_checksum body checksum else []))

/-! ## Packet decoding (`from_bin`) -/

/-- `PacketHeader::from_bin` from `src/src/packet/packet_header.rs`.
`none` models the panic of reading past a buffer shorter than 9 bytes
(equally the `debug_assert!(memory.len() >= Self::bin_size())`). -/
def PacketHeader.from_bin (m : List Nat) : Option (Except ParsingError PacketHeader) :=
  if m.length < 9 then none
  else
    match flagFromBin (m.getD 8 0) with
    | .error e => some (.error e)
    | .ok f => some (.ok ⟨readU32 m 0, readU16 m 4, readU16 m 6, f⟩)

/-- `InitPacket::from_bin` from `src/src/packet/init_packet.rs`.  The
header parse result is `.unwrap()`ed (panic on error); the three u16
fields are read at offsets 9, 11, 13 (panic when the buffer is shorter
than 15 bytes); the u16 subtraction `packet_size - checksum_size`
overflows (debug panic) when `checksum_size > packet_size`. -/
def InitPacket.from_bin (m : List Nat) : Option (Except ParsingError InitPacket) :=
  match PacketHeader.from_bin m with
  | none => none
  | some (.error _) => none
  | some (.ok header) =>
    if m.length < 15 then none
    else
      let window_size := readU16 m 9
      let packet_size := readU16 m 11
      let checksum_size := readU16 m 13
      if packet_size < checksum_size then none
      else if m.length < packet_size - checksum_size then
        some (.error (.InvalidSize (packet_size - checksum_size) m.length))
      else some (.ok ⟨header, window_size, packet_size, checksum_size⟩)

/-- `DataPacket::from_bin` from `src/src/packet/data_packet.rs`: parse
the header (propagating errors with `?`) and take the rest as payload. -/
def DataPacket.from_bin (m : List Nat) : Option (Except ParsingError DataPacket) :=
  match PacketHeader.from_bin m with
  | none => none
  | some (.error e) => some (.error e)
  | some (.ok h) => some (.ok ⟨h, m.drop 9⟩)

/-- `ErrorPacket::from_bin` from `src/src/packet/error_packet.rs`. -/
def ErrorPacket.from_bin (m : List Nat) : Option (Except ParsingError ErrorPacket) :=
  match PacketHeader.from_bin m with
  | none => none
  | some (.error e) => some (.error e)
  | some (.ok h) => some (.ok ⟨h⟩)

/-- `EndPacket::from_bin` from `src/src/packet/end_packet.rs`: the
header parse is `.unwrap()`ed, so an error is a panic. -/
def EndPacket.from_bin (m : List Nat) : Option (Except ParsingError EndPacket) :=
  match PacketHeader.from_bin m with
  | none => none
  | some (.error _) => none
  | some (.ok h) => some (.ok ⟨h⟩)

/-- `ToBin::from_bin` for `Packet` from `src/src/packet/packet.rs`
(lines 33-43): read the flag byte at offset 8 and dispatch.  The result
of `Flag::from_bin` is `.unwrap()`ed, so an unrecognized flag byte
(anything outside 0x0/0x1/0x2/0x4/0x8) PANICS (`none`) instead of
surfacing `InvalidFlag`; only the recognized byte 0x0 (`Flag::None`)
reaches the `InvalidFlag` return. -/
def packetFromBin (m : List Nat) : Option (Except ParsingError Packet) :=
  match m.get? 8 with
  | none => none
  | some fb =>
    match flagFromBin fb with
    | .error _ => none
    | .ok .None => some (.error (.InvalidFlag fb))
    | .ok .Init => (InitPacket.from_bin m).map (fun r => r.map Packet.Init)
    | .ok .Data => (DataPacket.from_bin m).map (fun r => r.map Packet.Data)
    | .ok .Error => (ErrorPacket.from_bin m).map (fun r => r.map Packet.Error)
    | .ok .End => (EndPacket.from_bin m).map (fun r => r.map Packet.End)

/-- `Packet::from_bin` from `src/src/packet/packet.rs` (lines 72-93):
check the minimum length, parse the prefix before the checksum,
rewrite the actual size of `InvalidSize` errors to the full length, and
when `checksum > 0` recompute and compare the XOR fold. -/
def Packet.from_bin (m : List Nat) (checksum : Nat) : Option (Except ParsingError Packet) :=
  if checksum + 9 > m.length then
    some (.error (.InvalidSize (checksum + 9) m.length))
  else
    let checksum_start := m.length - checksum
    match packetFromBin (m.take checksum_start) with
    | none => none
    | some (.error (.InvalidSize expected _)) => some (.error (.InvalidSize expected m.length))
    | some (.error e) => some (.error e)
    | some (.ok pkt) =>
      if checksum > 0 then
        if checksums_match (m.drop checksum_start)
            (construct_checksum (m.take checksum_start) checksum) then
          some (.ok pkt)
        else some (.error .ChecksumNotMatch)
      else some (.ok pkt)

/-- A packet whose header flag byte agrees with its variant (the
encoder writes the header's flag field, the decoder dispatches on it,
so round-tripping requires the two to agree). -/
def wellFlagged : Packet → Bool
  | .Init q => q.header.flag == .Init
  | .Data q => q.header.flag == .Data
  | .Error q => q.header.flag == .Error
  | .End q => q.header.flag == .End

/-- The header fields fit their wire widths (u32 id, u16 seq/ack). -/
def headerBounds (h : PacketHeader) : Prop :=
  h.id < 4294967296 ∧ h.seq < 65536 ∧ h.ack < 65536

/-- Well-formedness of a packet value: field bounds, plus for Init the
size constraints under which encoding does not panic
(`header.bin_size() + 6 < packet_size` is the source's own
`debug_assert`; `checksum_size + 15 ≤ packet_size` keeps the 15 header
and parameter bytes inside the body `packet_size - checksum_size`). -/
def packetBounds : Packet → Prop
  | .Init q => headerBounds q.header ∧ q.window_size < 65536 ∧ q.packet_size < 65536 ∧
      q.checksum_size < 65536 ∧ 9 + 6 < q.packet_size ∧
      q.checksum_size + 15 ≤ q.packet_size
  | .Data q => headerBounds q.header
  | .Error q => headerBounds q.header
  | .End q => headerBounds q.header

/-! ## Window arithmetic (src/src/connection_properties.rs) -/

/-- Static per-connection properties agreed at init, from
`src/src/connection_properties.rs` (the peer socket address is an
external collaborator and is not part of the model). -/
structure ConnectionProperties where
  id : Nat
  checksum_size : Nat
  window_size : Nat
  packet_size : Nat
deriving DecidableEq, Repr

/-- `ConnectionProperties::is_within_window` from
`src/src/connection_properties.rs` (lines 32-50): wrapping-add the
window size to the base; without wraparound test
`base <= ack < base + size` (the plain u16 addition cannot overflow in
this branch), with wraparound test `base <= ack || ack < end`. -/
def is_within_window (window_size ack window_position : Nat) : Bool :=
  let window_end := (window_position + window_size) % 65536
  if window_position < window_end then
    decide (window_position ≤ ack) && decide (ack < window_position + window_size)
  else
    decide (window_position ≤ ack) || decide (ack < window_end)

/-! ## Sender per-connection state (src/src/sender/sender_connection_properties.rs) -/

/-- `Part` from `src/src/sender/sender_connection_properties.rs`: a
chunk of the file together with its transmit bookkeeping (the transmit
instant is an abstract tick). -/
structure Part where
  content : List Nat
  last_transition : Nat
  seq : Nat
  send : Bool
deriving DecidableEq, Repr

/-- `SenderConnectionProperties`: the sender window state. -/
structure SenderConnectionProperties where
  static_properties : ConnectionProperties
  window_position : Nat
  loaded_parts : List (Nat × Part)
  file_read : Bool
deriving DecidableEq, Repr

/-- The `while current_pos != end_pos` removal loop of
`SenderConnectionProperties::acknowledge`: remove the key at each
position walked (panicking -- `none` -- when a key is absent, as the
source `.expect`s the removal).  The first argument is the exact number
of iterations the loop performs, `wdist current end`. -/
def ackLoop {α : Type} : Nat → Nat → List (Nat × α) → Option (List (Nat × α))
  | 0, _, parts => some parts
  | n + 1, pos, parts =>
      match mapLookup parts pos with
      | none => none
      | some _ => ackLoop n ((pos + 1) % 65536) (mapRemove parts pos)

/-- `SenderConnectionProperties::acknowledge` from
`src/src/sender/sender_connection_properties.rs` (lines 59-84): ignore
acks outside the window (return `false`), otherwise remove the cache
entries from `window_position` through `ack` inclusive, move the window
to `ack + 1` (wrapping) and report whether it moved. -/
def acknowledge (s : SenderConnectionProperties) (ack : Nat) :
    Option (SenderConnectionProperties × Bool) :=
  if is_within_window s.static_properties.window_size ack s.window_position = false then
    some (s, false)
  else
    match ackLoop (wdist s.window_position ((ack + 1) % 65536)) s.window_position
        s.loaded_parts with
    | none => none
    | some parts =>
        some ({ s with window_position := (ack + 1) % 65536, loaded_parts := parts },
          decide ((ack + 1) % 65536 ≠ s.window_position))

/-- `SenderConnectionProperties::is_complete`. -/
def is_complete (s : SenderConnectionProperties) : Bool :=
  s.file_read && s.loaded_parts.length == 0

/-! ## Receiver per-connection state (src/src/receiver/receiver_connection_properties.rs) -/

/-- `ReceiverConnectionProperties`: the receiver reassembly state.  The
output file is modelled by the bytes appended to it so far (`none` =
not yet opened); `last_receive_time` is an abstract tick. -/
structure ReceiverConnectionProperties where
  static_properties : ConnectionProperties
  window_position : Nat
  next_write_position : Nat
  parts_received : List (Nat × List Nat)
  last_receive_time : Nat
  is_closed : Bool
  file : Option (List Nat)
deriving DecidableEq, Repr

/-- `ReceiverConnectionProperties::new`. -/
def ReceiverConnectionProperties.new (props : ConnectionProperties)
    (now : Nat) : ReceiverConnectionProperties :=
  ⟨props, 0, 0, [], now, false, none⟩

/-- `ReceiverConnectionProperties::get_acknowledge`: wrapping
`window_position - 1`. -/
def get_acknowledge (s : ReceiverConnectionProperties) : Nat :=
  (s.window_position + 65535) % 65536

/-- The `while parts_received.contains_key(window_position)` loop at the
end of `store_data`: slide the window past contiguously received
parts.  Fuel 65536 covers every u16 position once; exhausting it means
every position is a key and the source loop never terminates (`none`). -/
def advanceWindow : Nat → ReceiverConnectionProperties → Option ReceiverConnectionProperties
  | 0, s => if (mapLookup s.parts_received s.window_position).isSome then none else some s
  | n + 1, s =>
      if (mapLookup s.parts_received s.window_position).isSome then
        advanceWindow n { s with window_position := (s.window_position + 1) % 65536 }
      else some s

/-- `ReceiverConnectionProperties::store_data` (lines 65-91): register
the receive time, drop data outside the window, otherwise store the
payload under its seq and slide the window. -/
def store_data (s : ReceiverConnectionProperties) (data : List Nat) (seq : Nat)
    (now : Nat) : Option ReceiverConnectionProperties :=
  let s1 := { s with last_receive_time := now }
  if is_within_window s.static_properties.window_size seq s.window_position = false then
    some s1
  else
    advanceWindow 65536
      { s1 with parts_received := mapInsert s1.parts_received seq data }

/-- The `while next_write_position != window_position` loop of
`save_into_file`: remove the part at the write position (panic --
`none` -- when absent, as the source `.expect`s it), append its bytes
to the (lazily opened) file and advance the write position.  The first
argument is the exact number of iterations,
`wdist next_write_position window_position`. -/
def saveLoop : Nat → ReceiverConnectionProperties → Option ReceiverConnectionProperties
  | 0, s => some s
  | n + 1, s =>
      if s.next_write_position = s.window_position then some s
      else
        match mapLookup s.parts_received s.next_write_position with
        | none => none
        | some buffer =>
            saveLoop n { s with
              parts_received := mapRemove s.parts_received s.next_write_position,
              file := some (s.file.getD [] ++ buffer),
              next_write_position := (s.next_write_position + 1) % 65536 }

/-- `ReceiverConnectionProperties::save_into_file` (lines 94-124). -/
def save_into_file (s : ReceiverConnectionProperties) :
    Option ReceiverConnectionProperties :=
  saveLoop (wdist s.next_write_position s.window_position) s

/-- The payloads flushed by `save_into_file`, in flush order: the stored
parts at `pos`, `pos + 1`, ..., walking `d` positions (wrapping). -/
def flushedParts (m : List (Nat × List Nat)) (pos : Nat) : Nat → List (List Nat)
  | 0 => []
  | d + 1 => (mapLookup m pos).getD [] :: flushedParts m ((pos + 1) % 65536) d

/-! ## Receiver logic (src/src/receiver/logic.rs) -/

/-- Modelled from the spec: `DataPacket::new_receiver` is called in
`src/src/receiver/logic.rs` (line 202) but its definition is absent
from the sources.  Per the spec ("Reply with a Data packet containing
`seq = received-seq`, `ack = window_position − 1`"), it builds the Data
reply carrying the connection id, the echoed seq and the cumulative
ack; this structure records those header fields. -/
structure DataReply where
  id : Nat
  seq : Nat
  ack : Nat
deriving DecidableEq, Repr

/-- The `Flag::Data` branch of the receiver loop
(`src/src/receiver/logic.rs`, lines 189-211), after the packet has been
decoded as a Data packet for a known connection: data outside the
window is not stored (only logged), in-window data is stored and
flushed, and in both cases a Data reply echoes the received seq with
ack `window_position - 1` (via `get_acknowledge`). -/
def handleData (s : ReceiverConnectionProperties) (seq : Nat) (data : List Nat)
    (now : Nat) : Option (ReceiverConnectionProperties × DataReply) :=
  if is_within_window s.static_properties.window_size seq s.window_position = false then
    some (s, ⟨s.static_properties.id, seq, get_acknowledge s⟩)
  else
    match store_data s data seq now with
    | none => none
    | some s1 =>
      match save_into_file s1 with
      | none => none
      | some s2 => some (s2, ⟨s2.static_properties.id, seq, get_acknowledge s2⟩)

/-- The packet the receiver sends back from the `Flag::End` branch. -/
inductive EndReply where
  | endEcho (id seq : Nat)
  | errorReply (id : Nat)
  | silent
deriving DecidableEq, Repr

/-- The `Flag::End` branch of the receiver loop
(`src/src/receiver/logic.rs`, lines 264-287), after the packet has been
decoded as an End packet for a known connection.  A gapped stream
(buffered parts remain or the window position disagrees with the
packet's seq) drops the connection via `remove_connection`, which sends
an Error packet unless the connection was already closed.  Otherwise
the code sets `is_closed = true` directly on the state -- it does NOT
call `ReceiverConnectionProperties::close`, so the file handle is left
untouched -- and echoes an End packet with `seq = window_position`.
The first component is the connection entry left in the map (`none` =
entry removed). -/
def handleEnd (s : ReceiverConnectionProperties) (pktSeq : Nat) :
    Option ReceiverConnectionProperties × EndReply :=
  if s.parts_received.length > 0 ∨ s.window_position ≠ pktSeq then
    (none, if s.is_closed then .silent else .errorReply s.static_properties.id)
  else
    (some { s with is_closed := true }, .endEcho s.static_properties.id s.window_position)

/-- Modelled from the spec: `InitPacket::from_bin_no_size_and_hash_check`
is called in `src/src/receiver/logic.rs` (line 85) but its definition is
absent from the sources.  Per the spec (`parse_init_unchecked` "returns
only the Init fields (window, packet, checksum sizes) without validating
length or checksum"), it parses the header and the three u16 fields and
performs neither the length check nor any checksum comparison; reading
past the buffer panics (`none`). -/
def InitPacket.from_bin_no_size_and_hash_check (m : List Nat) :
    Option (Except ParsingError InitPacket) :=
  match PacketHeader.from_bin m with
  | none => none
  | some (.error e) => some (.error e)
  | some (.ok header) =>
    if m.length < 15 then none
    else some (.ok ⟨header, readU16 m 9, readU16 m 11, readU16 m 13⟩)

/-- Receiver configuration values used by the Init branch
(`src/src/receiver/config.rs` accessors). -/
structure ReceiverConfig where
  max_window_size : Nat
  max_packet_size : Nat
  min_checksum_size : Nat
deriving DecidableEq, Repr

/-- The Init reply sent by the receiver (header id plus the three
negotiated fields of the Init body). -/
structure InitReply where
  id : Nat
  window_size : Nat
  packet_size : Nat
  checksum_size : Nat
deriving DecidableEq, Repr

/-- The `Flag::Init` branch of the receiver loop
(`src/src/receiver/logic.rs`, lines 83-166).  The packet content is
first parsed without size/checksum validation to recover the proposed
checksum width, then fully validated with it.  A valid Init ALWAYS
creates a brand-new connection under a freshly drawn id -- the branch
never consults the existing connections for the packet's header id.
`freshId` stands for the id drawn by the source's retry loop; the
`none` returned when it is zero or already taken corresponds to the
loop drawing again.  An `InvalidSize` failure answers with the
receiver's defaults under id 0 (`packetLen` is the received byte count,
cast to u16); other failures are silently dropped. -/
def handleInit (cfg : ReceiverConfig) (props : List (Nat × ReceiverConnectionProperties))
    (bytes : List Nat) (freshId now : Nat) :
    Option (List (Nat × ReceiverConnectionProperties) × Option InitReply) :=
  match InitPacket.from_bin_no_size_and_hash_check bytes with
  | none => none
  | some (.error _) => some (props, none)
  | some (.ok ic) =>
    match Packet.from_bin bytes ic.checksum_size with
    | none => none
    | some (.ok (.Init _)) =>
        let window_size := min ic.window_size cfg.max_window_size
        let packet_size := min ic.packet_size cfg.max_packet_size
        let checksum_size := max ic.checksum_size cfg.min_checksum_size
        if freshId = 0 ∨ (mapLookup props freshId).isSome then none
        else
          let conn := ReceiverConnectionProperties.new
            ⟨freshId, checksum_size, window_size, packet_size⟩ now
          some (mapInsert props freshId conn,
            some ⟨freshId, window_size, packet_size, checksum_size⟩)
    | some (.ok _) => some (props, none)
    | some (.error (.InvalidSize _ _)) =>
        some (props, some ⟨0, cfg.max_window_size,
          min cfg.max_packet_size (bytes.length % 65536), cfg.min_checksum_size⟩)
    | some (.error _) => some (props, none)

/-! ## Broker scheduling queue (src/src/broker) -/

/-- `PacketWrapper` from `src/src/broker/packet_wrapper.rs`: a payload
with the instant (an abstract tick) at which it becomes due.  Its `Ord`
implementation compares `send_at` ascending. -/
structure PacketWrapper where
  content : List Nat
  send_at : Nat
deriving DecidableEq, Repr

/-- The greatest element of the queue under `PacketWrapper`'s `Ord`
(ascending `send_at`), i.e. the envelope with the LATEST due instant.
Rust's `std::collections::BinaryHeap` is documented as a max-heap with
respect to the element ordering, and `src/src/broker/logic.rs` stores
`PacketWrapper`s in a plain `BinaryHeap` (no `Reverse` adapter), so
this is what `peek`/`pop` yield. -/
def heapMax : List PacketWrapper → Option PacketWrapper
  | [] => none
  | w :: rest =>
      match heapMax rest with
      | none => some w
      | some m => if m.send_at ≤ w.send_at then some w else some m

/-- `BinaryHeap::pop` as used by `sending_part` in
`src/src/broker/logic.rs` (line 209): remove and return a maximal
element under the wrapper ordering. -/
def heapPop (h : List PacketWrapper) : Option (PacketWrapper × List PacketWrapper) :=
  match heapMax h with
  | none => none
  | some m => some (m, h.eraseP (fun w => w == m))

/-! ## Helper lemmas -/

theorem wdist_self (a : Nat) (h : a < 65536) : wdist a a = 0 := by
  unfold wdist; omega

theorem wdist_eq_zero (a b : Nat) (ha : a < 65536) (hb : b < 65536)
    (h : wdist a b = 0) : a = b := by
  unfold wdist at h; omega

theorem wdist_succ_step (a b d : Nat) (ha : a < 65536) (hb : b < 65536)
    (h : wdist a b = d + 1) : wdist ((a + 1) % 65536) b = d := by
  unfold wdist at h ⊢; omega

theorem wdist_lt (a b : Nat) : wdist a b < 65536 := by
  unfold wdist; omega

theorem wdist_add_offset (a i : Nat) (ha : a < 65536) (hi : i < 65536) :
    wdist a ((a + i) % 65536) = i := by
  unfold wdist; omega

theorem wdist_offset_cancel (a d : Nat) (ha : a < 65536) (hb : d < 65536) :
    (a + wdist a ((a + d) % 65536)) % 65536 = (a + d) % 65536 := by
  unfold wdist; omega

theorem mod_step_assoc (a i : Nat) :
    ((a + 1) % 65536 + i) % 65536 = (a + (i + 1)) % 65536 := by
  omega

theorem mapLookup_remove {α : Type} (m : List (Nat × α)) (k k2 : Nat) :
    mapLookup (mapRemove m k) k2 = if k2 = k then none else mapLookup m k2 := by
  induction m with
  | nil => simp only [mapRemove, mapLookup]; split <;> rfl
  | cons hd tl ih =>
    obtain ⟨k3, v⟩ := hd
    simp only [mapRemove, mapLookup]
    by_cases h3 : k3 = k
    · simp only [if_pos h3, ih]
      by_cases h2 : k2 = k
      · simp [h2]
      · have h32 : ¬ k3 = k2 := fun hh => h2 (hh.symm.trans h3)
        simp [h2, h32]
    · simp only [if_neg h3, mapLookup]
      by_cases h32 : k3 = k2
      · subst h32
        simp [h3]
      · simp [h32, ih]

theorem mapLookup_insert {α : Type} (m : List (Nat × α)) (k k2 : Nat) (v : α) :
    mapLookup (mapInsert m k v) k2 = if k2 = k then some v else mapLookup m k2 := by
  by_cases h : k2 = k
  · subst h; simp [mapInsert, mapLookup]
  · have hne : ¬ k = k2 := fun hh => h hh.symm
    simp [mapInsert, mapLookup, hne, mapLookup_remove, h]

theorem is_within_window_iff (window_size ack window_position : Nat)
    (hws : window_size < 65536) (ha : ack < 65536) (hb : window_position < 65536) :
    is_within_window window_size ack window_position = true ↔
      (wdist window_position ack < window_size ∨ window_size = 0) := by
  unfold is_within_window wdist
  simp only []
  split <;>
    simp only [Bool.and_eq_true, Bool.or_eq_true, decide_eq_true_eq] <;> omega

theorem wdist_succ_right (a b : Nat) (ha : a < 65536) (hb : b < 65536)
    (h : wdist a b ≤ 65534) : wdist a ((b + 1) % 65536) = wdist a b + 1 := by
  unfold wdist at h ⊢; omega

/-! ## The window-walking removal loop -/

theorem ackLoop_spec {α : Type} : ∀ (n : Nat), n ≤ 65535 →
    ∀ (pos : Nat) (m : List (Nat × α)), pos < 65536 →
    (∀ i, i < n → (mapLookup m ((pos + i) % 65536)).isSome = true) →
    ∃ m', ackLoop n pos m = some m' ∧
      (∀ i, i < n → mapLookup m' ((pos + i) % 65536) = none) ∧
      (∀ k, (∀ i, i < n → k ≠ (pos + i) % 65536) → mapLookup m' k = mapLookup m k) := by
  intro n
  induction n with
  | zero =>
    intro _ pos m _ _
    exact ⟨m, rfl, fun i hi => absurd hi (by omega), fun k _ => rfl⟩
  | succ n ih =>
    intro hn pos m hpos hpresent
    have hpos0 : (pos + 0) % 65536 = pos := by omega
    have hsome : (mapLookup m pos).isSome = true := by
      have := hpresent 0 (by omega)
      rwa [hpos0] at this
    obtain ⟨v, hv⟩ := Option.isSome_iff_exists.mp hsome
    have hpos1 : (pos + 1) % 65536 < 65536 := by omega
    have hstep : ∀ i, ((pos + 1) % 65536 + i) % 65536 = (pos + (i + 1)) % 65536 :=
      fun i => mod_step_assoc pos i
    have hne_pos : ∀ i, i < n → (pos + (i + 1)) % 65536 ≠ pos := by
      intro i hi heq
      have h1 := wdist_add_offset pos (i + 1) hpos (by omega)
      rw [heq, wdist_self pos hpos] at h1
      omega
    have hpresent1 : ∀ i, i < n →
        (mapLookup (mapRemove m pos) (((pos + 1) % 65536 + i) % 65536)).isSome = true := by
      intro i hi
      rw [hstep i, mapLookup_remove, if_neg (hne_pos i hi)]
      exact hpresent (i + 1) (by omega)
    obtain ⟨m', hloop, hnone, hframe⟩ := ih (by omega) ((pos + 1) % 65536)
      (mapRemove m pos) hpos1 hpresent1
    refine ⟨m', ?_, ?_, ?_⟩
    · unfold ackLoop
      rw [hv]
      exact hloop
    · intro i hi
      match i with
      | 0 =>
        rw [hpos0]
        have h1 : ∀ j, j < n → pos ≠ ((pos + 1) % 65536 + j) % 65536 := by
          intro j hj
          rw [hstep j]
          exact fun heq => hne_pos j hj heq.symm
        rw [hframe pos h1, mapLookup_remove, if_pos rfl]
      | j + 1 =>
        have := hnone j (by omega)
        rwa [hstep j] at this
    · intro k hk
      have h1 : ∀ j, j < n → k ≠ ((pos + 1) % 65536 + j) % 65536 := by
        intro j hj
        rw [hstep j]
        exact hk (j + 1) (by omega)
      have h2 : k ≠ pos := by
        have := hk 0 (by omega)
        rwa [hpos0] at this
      rw [hframe k h1, mapLookup_remove, if_neg h2]

theorem wdist_add_self (a b : Nat) (ha : a < 65536) (hb : b < 65536) :
    (a + wdist a b) % 65536 = b := by
  unfold wdist; omega

/-! ## Checksum lemmas -/

theorem xorInto_length : ∀ (acc block : List Nat), (xorInto acc block).length = acc.length := by
  intro acc
  induction acc with
  | nil => intro block; cases block <;> rfl
  | cons a acc ih =>
    intro block
    cases block with
    | nil => rfl
    | cons b bl => simp [xorInto, ih]

theorem csumBlocks_length (k : Nat) : ∀ (n : Nat) (acc data : List Nat),
    (csumBlocks k n acc data).length = acc.length := by
  intro n
  induction n with
  | zero => intro acc data; rfl
  | succ n ih => intro acc data; simp [csumBlocks, ih, xorInto_length]

theorem construct_checksum_length (data : List Nat) (k : Nat) (hk : 0 < k) :
    (construct_checksum data k).length = k := by
  unfold construct_checksum
  rw [if_neg (by omega)]
  rw [csumBlocks_length, List.length_replicate]

theorem checksums_match_self : ∀ (a : List Nat), checksums_match a a = true := by
  intro a
  induction a with
  | nil => rfl
  | cons x l ih =>
    unfold checksums_match at ih ⊢
    simp only [List.zip_cons_cons, List.find?_cons, bne_self_eq_false]
    exact ih

theorem checksums_match_eq : ∀ (a b : List Nat), a.length = b.length →
    checksums_match a b = true → a = b := by
  intro a
  induction a with
  | nil =>
    intro b hlen _
    cases b with
    | nil => rfl
    | cons y bl => exact absurd hlen (by simp)
  | cons x al ih =>
    intro b hlen hmatch
    cases b with
    | nil => exact absurd hlen (by simp)
    | cons y bl =>
      unfold checksums_match at hmatch
      simp only [List.zip_cons_cons, List.find?_cons] at hmatch
      by_cases hxy : x = y
      · subst hxy
        simp only [bne_self_eq_false] at hmatch
        have : al = bl := ih bl (by simpa using hlen) (by unfold checksums_match; exact hmatch)
        rw [this]
      · rw [show ((x, y).1 != (x, y).2) = true from by simpa using hxy] at hmatch
        exact absurd hmatch (by simp)

theorem xorResidueAux_shift (k i : Nat) : ∀ (rest : List Nat) (off : Nat),
    xorResidueAux k i (off + k) rest = xorResidueAux k i off rest := by
  intro rest
  induction rest with
  | nil => intro off; rfl
  | cons hd tl ih =>
    intro off
    simp only [xorResidueAux]
    rw [Nat.add_mod_right off k]
    have h1 : off + k + 1 = (off + 1) + k := by omega
    rw [h1, ih (off + 1)]

theorem xorResidueAux_append (k i : Nat) : ∀ (a b : List Nat) (off : Nat),
    xorResidueAux k i off (a ++ b) =
      xorResidueAux k i off a ^^^ xorResidueAux k i (off + a.length) b := by
  intro a
  induction a with
  | nil =>
    intro b off
    simp [xorResidueAux, Nat.zero_xor]
  | cons hd tl ih =>
    intro b off
    simp only [List.cons_append, xorResidueAux, List.length_cons, List.append_eq]
    have h1 : off + 1 + tl.length = off + (tl.length + 1) := by omega
    by_cases h : off % k = i
    · rw [if_pos h, if_pos h, ih b (off + 1), Nat.xor_assoc, h1]
    · rw [if_neg h, if_neg h, ih b (off + 1), h1]

theorem xorResidueAux_short (k i : Nat) (hik : i < k) : ∀ (c : List Nat) (off : Nat),
    off + c.length ≤ k →
    xorResidueAux k i off c =
      if off ≤ i ∧ i < off + c.length then c.getD (i - off) 0 else 0 := by
  intro c
  induction c with
  | nil =>
    intro off _
    simp only [xorResidueAux, List.length_nil, Nat.add_zero]
    rw [if_neg (by omega)]
  | cons hd tl ih =>
    intro off hlen
    simp only [xorResidueAux, List.length_cons] at hlen ⊢
    have hoffk : off < k := by omega
    have hmod : off % k = off := Nat.mod_eq_of_lt hoffk
    rw [hmod]
    by_cases h : off = i
    · rw [if_pos h]
      have htail : xorResidueAux k i (off + 1) tl = 0 := by
        rw [ih (off + 1) (by omega), if_neg (by omega)]
      rw [htail, Nat.xor_zero, if_pos (by omega)]
      have h0 : i - off = 0 := by omega
      rw [h0]
      rfl
    · rw [if_neg h, ih (off + 1) (by omega)]
      by_cases hc : off + 1 ≤ i ∧ i < off + 1 + tl.length
      · rw [if_pos hc, if_pos (by omega)]
        have h2 : i - off = (i - (off + 1)) + 1 := by omega
        rw [h2]
        rfl
      · rw [if_neg hc, if_neg (by omega)]

theorem xorInto_getD : ∀ (acc block : List Nat) (i : Nat), block.length ≤ acc.length →
    (xorInto acc block).getD i 0 =
      if i < block.length then acc.getD i 0 ^^^ block.getD i 0
      else acc.getD i 0 := by
  intro acc
  induction acc with
  | nil =>
    intro block i hlen
    have : block = [] := by
      cases block with
      | nil => rfl
      | cons b bl => exact absurd hlen (by simp)
    subst this
    simp [xorInto]
  | cons a al ih =>
    intro block i hlen
    cases block with
    | nil => simp [xorInto]
    | cons b bl =>
      simp only [xorInto, List.length_cons]
      match i with
      | 0 => simp
      | j + 1 =>
        simp only [List.getD_cons_succ]
        rw [ih bl j (by simpa using hlen)]
        by_cases hc : j < bl.length
        · rw [if_pos hc, if_pos (by omega)]
        · rw [if_neg hc, if_neg (by omega)]

theorem xorResidue_split (data : List Nat) (k i : Nat) (hk : 0 < k) :
    xorResidue k i data =
      xorResidue k i (data.take k) ^^^ xorResidue k i (data.drop k) := by
  unfold xorResidue
  have h1 := xorResidueAux_append k i (data.take k) (data.drop k) 0
  rw [List.take_append_drop] at h1
  rw [h1]
  by_cases hlen : k ≤ data.length
  · have ht : (data.take k).length = k := by
      rw [List.length_take]
      omega
    rw [ht, Nat.zero_add]
    have h2 := xorResidueAux_shift k i (data.drop k) 0
    rw [Nat.zero_add] at h2
    rw [h2]
  · have hdrop : data.drop k = [] := by
      rw [List.drop_eq_nil_iff]
      omega
    rw [hdrop]
    rfl

theorem csumBlocks_getD (k : Nat) (hk : 0 < k) (i : Nat) (hik : i < k) :
    ∀ (n : Nat) (acc data : List Nat), acc.length = k → data.length ≤ n * k →
    (csumBlocks k n acc data).getD i 0 = acc.getD i 0 ^^^ xorResidue k i data := by
  intro n
  induction n with
  | zero =>
    intro acc data _ hlen
    have : data = [] := by
      rw [← List.length_eq_zero]
      omega
    subst this
    simp only [csumBlocks, xorResidue, xorResidueAux, Nat.xor_zero]
  | succ n ih =>
    intro acc data hacc hlen
    simp only [csumBlocks]
    have hchunk : (data.take k).length ≤ k := by
      rw [List.length_take]
      omega
    have hdroplen : (data.drop k).length ≤ n * k := by
      rw [List.length_drop]
      have h2 : (n + 1) * k = n * k + k := by rw [Nat.succ_mul]
      omega
    rw [ih (xorInto acc (data.take k)) (data.drop k)
      (by rw [xorInto_length, hacc]) hdroplen]
    rw [xorInto_getD acc (data.take k) i (by omega)]
    rw [xorResidue_split data k i hk]
    have hshort := xorResidueAux_short k i hik (data.take k) 0 (by omega)
    simp only [Nat.zero_add, Nat.zero_le, true_and, Nat.sub_zero] at hshort
    have hx : xorResidue k i (data.take k) =
        if i < (data.take k).length then (data.take k).getD i 0 else 0 := hshort
    by_cases hc : i < (data.take k).length
    · rw [if_pos hc, hx, if_pos hc, Nat.xor_assoc]
    · rw [if_neg hc, hx, if_neg hc, Nat.zero_xor]

theorem replicate_getD : ∀ (k i : Nat), (List.replicate k (0 : Nat)).getD i 0 = 0 := by
  intro k
  induction k with
  | zero => intro i; rfl
  | succ k ih =>
    intro i
    match i with
    | 0 => rfl
    | j + 1 =>
      simp only [List.replicate, List.getD_cons_succ]
      exact ih j

theorem construct_checksum_getD (data : List Nat) (k i : Nat) (hik : i < k) :
    (construct_checksum data k).getD i 0 = xorResidue k i data := by
  have hk : 0 < k := by omega
  unfold construct_checksum
  rw [if_neg (by omega)]
  have hdm := Nat.div_add_mod data.length k
  have hnum : data.length ≤ num_blocks data.length k * k := by
    unfold num_blocks
    split
    · rw [Nat.mul_comm]
      omega
    · rw [Nat.add_mul, Nat.one_mul, Nat.mul_comm]
      have hmlt : data.length % k < k := Nat.mod_lt _ hk
      omega
  rw [csumBlocks_getD k hk i hik (num_blocks data.length k) _ data
    (by rw [List.length_replicate]) hnum]
  rw [replicate_getD, Nat.zero_xor]

theorem flushedParts_length (d : Nat) : ∀ (m : List (Nat × List Nat)) (pos : Nat),
    (flushedParts m pos d).length = d := by
  induction d with
  | zero => intro m pos; rfl
  | succ d ih => intro m pos; simp [flushedParts, ih]

theorem flushedParts_congr (d : Nat) : ∀ (pos : Nat) (m1 m2 : List (Nat × List Nat)),
    pos < 65536 →
    (∀ i, i < d → mapLookup m1 ((pos + i) % 65536) = mapLookup m2 ((pos + i) % 65536)) →
    flushedParts m1 pos d = flushedParts m2 pos d := by
  induction d with
  | zero => intro pos m1 m2 _ _; rfl
  | succ d ih =>
    intro pos m1 m2 hpos hagree
    have hpos0 : (pos + 0) % 65536 = pos := by omega
    have hhead : mapLookup m1 pos = mapLookup m2 pos := by
      have := hagree 0 (by omega)
      rwa [hpos0] at this
    have htail : flushedParts m1 ((pos + 1) % 65536) d =
        flushedParts m2 ((pos + 1) % 65536) d := by
      refine ih ((pos + 1) % 65536) m1 m2 (by omega) ?_
      intro i hi
      rw [mod_step_assoc pos i]
      exact hagree (i + 1) (by omega)
    simp [flushedParts, hhead, htail]

/-! ## Round-trip lemmas -/

theorem header_to_bin_cons (h : PacketHeader) :
    PacketHeader.to_bin h = [h.id / 16777216 % 256, h.id / 65536 % 256,
      h.id / 256 % 256, h.id % 256, h.seq / 256 % 256, h.seq % 256,
      h.ack / 256 % 256, h.ack % 256, h.flag.value] := rfl

theorem header_to_bin_length (h : PacketHeader) :
    (PacketHeader.to_bin h).length = 9 := by
  rw [header_to_bin_cons]
  rfl

theorem flag_value_roundtrip : ∀ f : Flag, flagFromBin f.value = .ok f := by
  intro f
  cases f <;> rfl

theorem header_append_get8 (h : PacketHeader) (rest : List Nat) :
    (PacketHeader.to_bin h ++ rest).get? 8 = some h.flag.value := by
  rw [List.get?_append (by rw [header_to_bin_length]; omega)]
  rw [header_to_bin_cons]
  rfl

theorem header_append_drop9 (h : PacketHeader) (rest : List Nat) :
    (PacketHeader.to_bin h ++ rest).drop 9 = rest := by
  have h1 := List.drop_left (PacketHeader.to_bin h) rest
  rwa [header_to_bin_length] at h1

theorem headerFromBin_to_bin (h : PacketHeader) (rest : List Nat)
    (hid : h.id < 4294967296) (hseq : h.seq < 65536) (hack : h.ack < 65536) :
    PacketHeader.from_bin (PacketHeader.to_bin h ++ rest) = some (.ok h) := by
  have hlen : (PacketHeader.to_bin h ++ rest).length = 9 + rest.length := by
    rw [List.length_append, header_to_bin_length]
  unfold PacketHeader.from_bin
  rw [if_neg (by omega)]
  rw [header_to_bin_cons]
  simp only [List.cons_append, List.nil_append]
  simp only [readU32, readU16, List.getD_cons_zero, List.getD_cons_succ]
  rw [flag_value_roundtrip]
  dsimp only
  have e1 : h.id / 16777216 % 256 * 16777216 + h.id / 65536 % 256 * 65536 +
      h.id / 256 % 256 * 256 + h.id % 256 = h.id := by omega
  have e2 : h.seq / 256 % 256 * 256 + h.seq % 256 = h.seq := by omega
  have e3 : h.ack / 256 % 256 * 256 + h.ack % 256 = h.ack := by omega
  rw [e1, e2, e3]

theorem fromBin_data_to_bin (q : DataPacket) (hf : q.header.flag = Flag.Data)
    (hid : q.header.id < 4294967296) (hseq : q.header.seq < 65536)
    (hack : q.header.ack < 65536) :
    packetFromBin (PacketHeader.to_bin q.header ++ q.data) =
      some (.ok (.Data q)) := by
  unfold packetFromBin
  rw [header_append_get8, hf]
  dsimp only
  rw [show flagFromBin (Flag.value Flag.Data) = Except.ok Flag.Data from rfl]
  dsimp only
  unfold DataPacket.from_bin
  rw [headerFromBin_to_bin q.header q.data hid hseq hack]
  dsimp only
  rw [header_append_drop9]
  rfl

theorem fromBin_error_to_bin (q : ErrorPacket) (hf : q.header.flag = Flag.Error)
    (hid : q.header.id < 4294967296) (hseq : q.header.seq < 65536)
    (hack : q.header.ack < 65536) :
    packetFromBin (PacketHeader.to_bin q.header ++ []) =
      some (.ok (.Error q)) := by
  unfold packetFromBin
  rw [header_append_get8, hf]
  dsimp only
  rw [show flagFromBin (Flag.value Flag.Error) = Except.ok Flag.Error from rfl]
  dsimp only
  unfold ErrorPacket.from_bin
  rw [headerFromBin_to_bin q.header [] hid hseq hack]
  dsimp only
  rfl

theorem fromBin_end_to_bin (q : EndPacket) (hf : q.header.flag = Flag.End)
    (hid : q.header.id < 4294967296) (hseq : q.header.seq < 65536)
    (hack : q.header.ack < 65536) :
    packetFromBin (PacketHeader.to_bin q.header ++ []) =
      some (.ok (.End q)) := by
  unfold packetFromBin
  rw [header_append_get8, hf]
  dsimp only
  rw [show flagFromBin (Flag.value Flag.End) = Except.ok Flag.End from rfl]
  dsimp only
  unfold EndPacket.from_bin
  rw [headerFromBin_to_bin q.header [] hid hseq hack]
  dsimp only
  rfl

theorem fromBin_init_to_bin (q : InitPacket) (hf : q.header.flag = Flag.Init)
    (hid : q.header.id < 4294967296) (hseq : q.header.seq < 65536)
    (hack : q.header.ack < 65536) (hw : q.window_size < 65536)
    (hp : q.packet_size < 65536) (hc : q.checksum_size < 65536)
    (hsz : q.checksum_size + 15 ≤ q.packet_size) :
    packetFromBin (PacketHeader.to_bin q.header ++ be16 q.window_size ++
      be16 q.packet_size ++ be16 q.checksum_size ++
      List.replicate (q.packet_size - q.checksum_size - 15) 0) =
      some (.ok (.Init q)) := by
  simp only [List.append_assoc]
  have hrestlen : (be16 q.window_size ++ (be16 q.packet_size ++ (be16 q.checksum_size ++
      List.replicate (q.packet_size - q.checksum_size - 15) 0))).length =
      6 + (q.packet_size - q.checksum_size - 15) := by
    simp [be16]
    omega
  unfold packetFromBin
  rw [header_append_get8, hf]
  dsimp only
  rw [show flagFromBin (Flag.value Flag.Init) = Except.ok Flag.Init from rfl]
  dsimp only
  unfold InitPacket.from_bin
  rw [headerFromBin_to_bin q.header _ hid hseq hack]
  dsimp only
  have hmlen : (PacketHeader.to_bin q.header ++ (be16 q.window_size ++
      (be16 q.packet_size ++ (be16 q.checksum_size ++
      List.replicate (q.packet_size - q.checksum_size - 15) 0)))).length =
      q.packet_size - q.checksum_size := by
    rw [List.length_append, header_to_bin_length, hrestlen]
    omega
  rw [if_neg (by omega)]
  rw [header_to_bin_cons]
  simp only [be16, List.cons_append, List.nil_append]
  simp only [readU16, List.getD_cons_zero, List.getD_cons_succ]
  have ew : q.window_size / 256 % 256 * 256 + q.window_size % 256 = q.window_size := by
    omega
  have ep : q.packet_size / 256 % 256 * 256 + q.packet_size % 256 = q.packet_size := by
    omega
  have ec : q.checksum_size / 256 % 256 * 256 + q.checksum_size % 256 =
      q.checksum_size := by omega
  rw [ew, ep, ec]
  rw [if_neg (by omega)]
  rw [if_neg (by simp [List.length_replicate]; omega)]
  simp [Except.map]

/-! ## Decoder error inversion -/

theorem flagFromBin_error (b : Nat) : ∀ e, flagFromBin b = .error e →
    e = .InvalidFlag b := by
  intro e h
  unfold flagFromBin at h
  split at h
  · exact absurd h (by simp)
  · exact absurd h (by simp)
  · exact absurd h (by simp)
  · exact absurd h (by simp)
  · exact absurd h (by simp)
  · injection h with h2
    exact h2.symm

theorem headerFromBin_error (m : List Nat) : ∀ e,
    PacketHeader.from_bin m = some (.error e) → ∃ c, e = ParsingError.InvalidFlag c := by
  intro e h
  unfold PacketHeader.from_bin at h
  split at h
  · exact absurd h (by simp)
  · cases hf : flagFromBin (m.getD 8 0) with
    | error e2 =>
      rw [hf] at h
      simp only [Option.some.injEq, Except.error.injEq] at h
      exact ⟨m.getD 8 0, h ▸ (flagFromBin_error _ _ hf)⟩
    | ok f =>
      rw [hf] at h
      exact absurd h (by simp)

theorem initFromBin_error (m : List Nat) : ∀ e,
    InitPacket.from_bin m = some (.error e) → ∃ a b, e = ParsingError.InvalidSize a b := by
  intro e h
  unfold InitPacket.from_bin at h
  cases hh : PacketHeader.from_bin m with
  | none => rw [hh] at h; exact absurd h (by simp)
  | some r =>
    rw [hh] at h
    cases r with
    | error e2 => exact absurd h (by simp)
    | ok header =>
      dsimp only at h
      split at h
      · exact absurd h (by simp)
      · split at h
        · exact absurd h (by simp)
        · split at h
          · simp only [Option.some.injEq, Except.error.injEq] at h
            exact ⟨_, _, h.symm⟩
          · exact absurd h (by simp)

theorem dataFromBin_error (m : List Nat) : ∀ e,
    DataPacket.from_bin m = some (.error e) → ∃ c, e = ParsingError.InvalidFlag c := by
  intro e h
  unfold DataPacket.from_bin at h
  cases hh : PacketHeader.from_bin m with
  | none => rw [hh] at h; exact absurd h (by simp)
  | some r =>
    rw [hh] at h
    cases r with
    | error e2 =>
      simp only [Option.some.injEq, Except.error.injEq] at h
      exact h ▸ headerFromBin_error m e2 hh
    | ok header => exact absurd h (by simp)

theorem errorFromBin_error (m : List Nat) : ∀ e,
    ErrorPacket.from_bin m = some (.error e) → ∃ c, e = ParsingError.InvalidFlag c := by
  intro e h
  unfold ErrorPacket.from_bin at h
  cases hh : PacketHeader.from_bin m with
  | none => rw [hh] at h; exact absurd h (by simp)
  | some r =>
    rw [hh] at h
    cases r with
    | error e2 =>
      simp only [Option.some.injEq, Except.error.injEq] at h
      exact h ▸ headerFromBin_error m e2 hh
    | ok header => exact absurd h (by simp)

theorem endFromBin_error (m : List Nat) : ∀ e,
    EndPacket.from_bin m ≠ some (.error e) := by
  intro e h
  unfold EndPacket.from_bin at h
  cases hh : PacketHeader.from_bin m with
  | none => rw [hh] at h; exact absurd h (by simp)
  | some r =>
    rw [hh] at h
    cases r with
    | error e2 => exact absurd h (by simp)
    | ok header => exact absurd h (by simp)

theorem packetFromBin_no_checksum_error (m : List Nat) :
    packetFromBin m ≠ some (.error ParsingError.ChecksumNotMatch) := by
  intro h
  unfold packetFromBin at h
  cases hg : m.get? 8 with
  | none => rw [hg] at h; exact absurd h (by simp)
  | some fb =>
    rw [hg] at h
    dsimp only at h
    cases hf : flagFromBin fb with
    | error e => rw [hf] at h; exact absurd h (by simp)
    | ok f =>
      rw [hf] at h
      cases f with
      | None => dsimp only at h; simp at h
      | Init =>
        dsimp only at h
        cases hi : InitPacket.from_bin m with
        | none => rw [hi] at h; exact absurd h (by simp)
        | some r =>
          rw [hi] at h
          cases r with
          | error e2 =>
            simp only [Option.map_some, Except.map, Option.some.injEq] at h
            obtain ⟨a, b2, he⟩ := initFromBin_error m e2 hi
            subst he
            exact absurd h (by simp)
          | ok q => exact absurd h (by simp [Except.map])
      | Data =>
        dsimp only at h
        cases hi : DataPacket.from_bin m with
        | none => rw [hi] at h; exact absurd h (by simp)
        | some r =>
          rw [hi] at h
          cases r with
          | error e2 =>
            simp only [Option.map_some, Except.map, Option.some.injEq] at h
            obtain ⟨c, he⟩ := dataFromBin_error m e2 hi
            subst he
            exact absurd h (by simp)
          | ok q => exact absurd h (by simp [Except.map])
      | Error =>
        dsimp only at h
        cases hi : ErrorPacket.from_bin m with
        | none => rw [hi] at h; exact absurd h (by simp)
        | some r =>
          rw [hi] at h
          cases r with
          | error e2 =>
            simp only [Option.map_some, Except.map, Option.some.injEq] at h
            obtain ⟨c, he⟩ := errorFromBin_error m e2 hi
            subst he
            exact absurd h (by simp)
          | ok q => exact absurd h (by simp [Except.map])
      | End =>
        dsimp only at h
        cases hi : EndPacket.from_bin m with
        | none => rw [hi] at h; exact absurd h (by simp)
        | some r =>
          rw [hi] at h
          cases r with
          | error e2 => exact absurd hi (endFromBin_error m e2)
          | ok q => exact absurd h (by simp [Except.map])

/-! ## Frame lemmas for the receiver transitions -/

theorem advanceWindow_lrt (n : Nat) : ∀ s s', advanceWindow n s = some s' →
    s'.last_receive_time = s.last_receive_time := by
  induction n with
  | zero =>
    intro s s' h
    unfold advanceWindow at h
    split at h
    · exact absurd h (by simp)
    · injection h with h2
      subst h2
      rfl
  | succ n ih =>
    intro s s' h
    unfold advanceWindow at h
    split at h
    · simpa using ih _ _ h
    · injection h with h2
      subst h2
      rfl

theorem saveLoop_frame (n : Nat) : ∀ s s', saveLoop n s = some s' →
    s'.window_position = s.window_position ∧
    s'.last_receive_time = s.last_receive_time ∧
    s'.is_closed = s.is_closed ∧
    s'.static_properties = s.static_properties := by
  induction n with
  | zero =>
    intro s s' h
    unfold saveLoop at h
    injection h with h2
    subst h2
    exact ⟨rfl, rfl, rfl, rfl⟩
  | succ n ih =>
    intro s s' h
    unfold saveLoop at h
    split at h
    · injection h with h2
      subst h2
      exact ⟨rfl, rfl, rfl, rfl⟩
    · cases hl : mapLookup s.parts_received s.next_write_position with
      | none => rw [hl] at h; exact absurd h (by simp)
      | some buffer =>
        rw [hl] at h
        simpa using ih _ _ h

theorem saveLoop_spec : ∀ (d : Nat), d ≤ 65535 → ∀ s : ReceiverConnectionProperties,
    s.next_write_position < 65536 → s.window_position < 65536 →
    wdist s.next_write_position s.window_position = d →
    (∀ i, i < d →
      (mapLookup s.parts_received ((s.next_write_position + i) % 65536)).isSome = true) →
    ∃ s', saveLoop d s = some s' ∧
      s'.next_write_position = s.window_position ∧
      s'.window_position = s.window_position ∧
      s'.file.getD [] = s.file.getD [] ++
        (flushedParts s.parts_received s.next_write_position d).join ∧
      (∀ i, i < d →
        mapLookup s'.parts_received ((s.next_write_position + i) % 65536) = none) ∧
      (∀ k, (∀ i, i < d → k ≠ (s.next_write_position + i) % 65536) →
        mapLookup s'.parts_received k = mapLookup s.parts_received k) := by
  intro d
  induction d with
  | zero =>
    intro _ s hnwp hwp hd _
    have heq : s.next_write_position = s.window_position := wdist_eq_zero _ _ hnwp hwp hd
    exact ⟨s, rfl, heq, rfl, by simp [flushedParts],
      fun i hi => absurd hi (by omega), fun k _ => rfl⟩
  | succ d ih =>
    intro hdle s hnwp hwp hd hpresent
    set pos := s.next_write_position with hposdef
    have hne : ¬ s.next_write_position = s.window_position := by
      intro heq
      rw [← hposdef] at heq
      rw [heq, wdist_self _ hwp] at hd
      omega
    have hpos0 : (pos + 0) % 65536 = pos := by omega
    have hsome : (mapLookup s.parts_received pos).isSome = true := by
      have := hpresent 0 (by omega)
      rwa [hpos0] at this
    obtain ⟨buffer, hbuf⟩ := Option.isSome_iff_exists.mp hsome
    have hstep : ∀ i, ((pos + 1) % 65536 + i) % 65536 = (pos + (i + 1)) % 65536 :=
      fun i => mod_step_assoc pos i
    have hne_pos : ∀ i, i < d → (pos + (i + 1)) % 65536 ≠ pos := by
      intro i hi heq
      have h1 := wdist_add_offset pos (i + 1) hnwp (by omega)
      rw [heq, wdist_self pos hnwp] at h1
      omega
    set s1 : ReceiverConnectionProperties := { s with
      parts_received := mapRemove s.parts_received pos,
      file := some (s.file.getD [] ++ buffer),
      next_write_position := (pos + 1) % 65536 } with hs1def
    have hs1nwp : s1.next_write_position < 65536 := by
      simp only [hs1def]
      omega
    have hs1d : wdist s1.next_write_position s1.window_position = d := by
      simp only [hs1def]
      exact wdist_succ_step pos s.window_position d hnwp hwp hd
    have hpresent1 : ∀ i, i < d →
        (mapLookup s1.parts_received ((s1.next_write_position + i) % 65536)).isSome
          = true := by
      intro i hi
      simp only [hs1def]
      rw [hstep i, mapLookup_remove, if_neg (hne_pos i hi)]
      exact hpresent (i + 1) (by omega)
    obtain ⟨s', hloop, hnwp', hwp', hfile', hnone', hframe'⟩ :=
      ih (by omega) s1 hs1nwp (by simp only [hs1def]; exact hwp) hs1d hpresent1
    refine ⟨s', ?_, ?_, ?_, ?_, ?_, ?_⟩
    · unfold saveLoop
      rw [if_neg hne, hbuf]
      exact hloop
    · rw [hnwp']
    · rw [hwp']
    · rw [hfile']
      have hcongr : flushedParts s1.parts_received ((pos + 1) % 65536) d =
          flushedParts s.parts_received ((pos + 1) % 65536) d := by
        refine flushedParts_congr d ((pos + 1) % 65536) _ _ (by omega) ?_
        intro i hi
        simp only [hs1def]
        rw [hstep i, mapLookup_remove, if_neg (hne_pos i hi)]
      have hhead : flushedParts s.parts_received pos (d + 1) =
          buffer :: flushedParts s.parts_received ((pos + 1) % 65536) d := by
        simp [flushedParts, hbuf]
      have hs1file : s1.file.getD [] = s.file.getD [] ++ buffer := by
        simp only [hs1def]
        rfl
      have hs1nwpeq : s1.next_write_position = (pos + 1) % 65536 := rfl
      rw [hs1nwpeq, hcongr, hs1file, hhead]
      simp [List.append_assoc]
    · intro i hi
      match i with
      | 0 =>
        rw [hpos0]
        have h1 : ∀ j, j < d → pos ≠ ((pos + 1) % 65536 + j) % 65536 := by
          intro j hj
          rw [hstep j]
          exact fun heq => hne_pos j hj heq.symm
        have h2 := hframe' pos h1
        rw [h2]
        simp only [hs1def]
        rw [mapLookup_remove, if_pos rfl]
      | j + 1 =>
        have h2 := hnone' j (by omega)
        have h3 : (s1.next_write_position + j) % 65536 = (pos + (j + 1)) % 65536 :=
          hstep j
        rwa [h3] at h2
    · intro k hk
      have hk0 : k ≠ pos := by
        have := hk 0 (by omega)
        rwa [hpos0] at this
      have h1 : ∀ j, j < d → k ≠ (s1.next_write_position + j) % 65536 := by
        intro j hj
        have h3 : (s1.next_write_position + j) % 65536 = (pos + (j + 1)) % 65536 :=
          hstep j
        rw [h3]
        exact hk (j + 1) (by omega)
      have h2 := hframe' k h1
      rw [h2]
      show mapLookup (mapRemove s.parts_received pos) k = mapLookup s.parts_received k
      rw [mapLookup_remove, if_neg hk0]

theorem store_data_lrt (s : ReceiverConnectionProperties) (data : List Nat)
    (seq now : Nat) : ∀ s', store_data s data seq now = some s' →
    s'.last_receive_time = now := by
  intro s' h
  unfold store_data at h
  split at h
  · injection h with h2
    subst h2
    rfl
  · simpa using advanceWindow_lrt 65536 _ _ h

/-! ## Claim C3 -/

/-- C3 (corrected): for all u16 triples, `is_within_window(val, base,
size)` agrees with `(val − base) mod 2¹⁶ < size` whenever `size ≠ 0`,
but for `size = 0` the code returns `true` for EVERY `val` (the
wrapping-add makes `window_end = base`, the no-wrap branch is not
taken, and the wrap branch `base ≤ val ∨ val < base` is a tautology) --
not `false` as the claim states.  Amended statement: the predicate
holds iff `(val − base) mod 2¹⁶ < size` or `size = 0`. -/
theorem C3_is_within_window_amended (base size val : Nat)
    (hb : base < 65536) (hs : size < 65536) (hv : val < 65536) :
    is_within_window size val base = true ↔
      ((val + 65536 - base) % 65536 < size ∨ size = 0) := by
  have h := is_within_window_iff size val base hs hv hb
  simpa [wdist] using h

/-- C3 counterexample: at `(base, size, val) = (0, 0, 0)` the code
returns `true` although `(0 − 0) mod 2¹⁶ < 0` is false, refuting the
claimed equivalence and in particular the claim that a zero-sized
window rejects every value. -/
theorem C3_counterexample :
    is_within_window 0 0 0 = true ∧ ¬ ((0 + 65536 - 0) % 65536 < 0) :=
  ⟨by decide, by decide⟩

/-- C3 witness: the amended equivalence instantiated at base 3, size 5,
val 4. -/
theorem C3_witness :
    is_within_window 5 4 3 = true ↔ ((4 + 65536 - 3) % 65536 < 5 ∨ 5 = 0) :=
  C3_is_within_window_amended 3 5 4 (by decide) (by decide) (by decide)

/-! ## Claim C4 -/

/-- C4 (code bug): the broker's per-direction queue is a Rust
`std::collections::BinaryHeap`, which is a MAX-heap with respect to the
element ordering, and `PacketWrapper`'s `Ord` compares `send_at`
ascending with no `Reverse` adapter; so what the send thread pops is
the envelope with the LARGEST `due_at` among those pending.  Concretely,
with envelopes due at ticks 10 and 20 both queued, `pop` yields the one
due at 20 although an envelope with the strictly smaller due instant 10
is pending -- contradicting the claim that the popped envelope always
has the smallest `due_at` and that packets leave in ascending `due_at`
order. -/
theorem C4_pop_yields_latest_due :
    heapPop [⟨[1], 10⟩, ⟨[2], 20⟩] = some (⟨[2], 20⟩, [⟨[1], 10⟩]) ∧
      (10 : Nat) < 20 :=
  ⟨by decide, by decide⟩

/-! ## Claim C7 -/

/-- C7 (code bug): for the 9-byte buffer whose flag byte (offset 8) is
the unrecognized value 3, `Packet::from_bin` PANICS (modelled `none`):
the `ToBin` implementation calls `Flag::from_bin(..).unwrap()`, although
`Flag::from_bin` itself produces exactly the `InvalidFlag(3)` error the
claim expects `Packet::from_bin` to return. -/
theorem C7_unwrap_panics_on_invalid_flag :
    Packet.from_bin [0, 0, 0, 0, 0, 0, 0, 0, 3] 0 = none ∧
      flagFromBin 3 = Except.error (ParsingError.InvalidFlag 3) :=
  ⟨rfl, rfl⟩

/-! ## Claim C9 -/

/-- C9 (code bug): a connection with an open file handle
(`file = some [1,2,3]`), no buffered parts and `window_position = 3`
receives a clean End with `seq = 3`.  The receiver accepts it and
replies with an End echoing `seq = window_position`, but the resulting
state has `is_closed = true` while the file handle is still present:
the `End` branch of `src/src/receiver/logic.rs` assigns
`is_closed = true` directly instead of calling
`ReceiverConnectionProperties::close` (which takes the handle), so the
claimed invariant `is_closed ⇒ file is None` is broken by the very
transition the claim describes. -/
theorem C9_end_leaves_file_open :
    handleEnd ⟨⟨5, 0, 15, 1500⟩, 3, 3, [], 0, false, some [1, 2, 3]⟩ 3 =
      (some ⟨⟨5, 0, 15, 1500⟩, 3, 3, [], 0, true, some [1, 2, 3]⟩,
        EndReply.endEcho 5 3) ∧
      (⟨⟨5, 0, 15, 1500⟩, 3, 3, [], 0, true, some [1, 2, 3]⟩ :
        ReceiverConnectionProperties).is_closed = true ∧
      (⟨⟨5, 0, 15, 1500⟩, 3, 3, [], 0, true, some [1, 2, 3]⟩ :
        ReceiverConnectionProperties).file ≠ none :=
  ⟨by decide, rfl, by decide⟩

/-! ## Claim C10 -/

/-- C10 (confirmed): a Data packet for a known connection whose seq is
outside the receive window still gets a Data reply with the echoed seq
and `ack = (window_position - 1) mod 2¹⁶`, while the connection state is
returned COMPLETELY unchanged (same `window_position`,
`next_write_position`, `parts_received`, file and `last_receive_time`);
and `last_receive_time` is refreshed (to the receive instant `now`)
exactly by the in-window Data path, which runs `store_data`. -/
theorem C10_out_of_window_frame (s : ReceiverConnectionProperties)
    (seq : Nat) (data : List Nat) (now : Nat) :
    (is_within_window s.static_properties.window_size seq s.window_position = false →
      handleData s seq data now =
        some (s, ⟨s.static_properties.id, seq, (s.window_position + 65535) % 65536⟩)) ∧
    (is_within_window s.static_properties.window_size seq s.window_position = true →
      ∀ s' r, handleData s seq data now = some (s', r) →
        s'.last_receive_time = now) := by
  constructor
  · intro h
    unfold handleData
    simp [h, get_acknowledge]
  · intro h s' r hres
    unfold handleData at hres
    rw [h] at hres
    simp only [Bool.true_eq_false, if_false] at hres
    cases hs1 : store_data s data seq now with
    | none => rw [hs1] at hres; exact absurd hres (by simp)
    | some s1 =>
      rw [hs1] at hres
      dsimp only at hres
      cases hs2 : save_into_file s1 with
      | none => rw [hs2] at hres; exact absurd hres (by simp)
      | some s2 =>
        rw [hs2] at hres
        simp only [Option.some.injEq, Prod.mk.injEq] at hres
        obtain ⟨h1, _⟩ := hres
        subst h1
        have hf : s2.last_receive_time = s1.last_receive_time :=
          (saveLoop_frame _ _ _ hs2).2.1
        rw [hf]
        exact store_data_lrt s data seq now s1 hs1

/-- C10 witness: a connection with window size 5 based at 0 receiving
out-of-window seq 10 answers with `ack = 65535` and is untouched. -/
theorem C10_witness :
    handleData ⟨⟨7, 0, 5, 100⟩, 0, 0, [], 42, false, none⟩ 10 [9, 9] 77 =
      some (⟨⟨7, 0, 5, 100⟩, 0, 0, [], 42, false, none⟩, ⟨7, 10, 65535⟩) :=
  (C10_out_of_window_frame ⟨⟨7, 0, 5, 100⟩, 0, 0, [], 42, false, none⟩
    10 [9, 9] 77).1 (by decide)

/-! ## Claim C8 -/

/-- C8 (corrected): the receiver's Init branch never consults the
existing connection map for the packet's header id.  Every
fully-validated Init -- even one belonging to an existing connection --
creates a brand-new connection entry under the freshly drawn unused
non-zero id and answers with THAT id and the re-negotiated parameters;
the stored state is neither treated as authoritative nor re-sent, and
the pre-existing entries are merely left unchanged. -/
theorem C8_new_connection (cfg : ReceiverConfig)
    (props : List (Nat × ReceiverConnectionProperties)) (bytes : List Nat)
    (freshId now : Nat) (ic icf : InitPacket)
    (hparse : InitPacket.from_bin_no_size_and_hash_check bytes = some (.ok ic))
    (hfull : Packet.from_bin bytes ic.checksum_size = some (.ok (.Init icf)))
    (hid : freshId ≠ 0) (hfresh : mapLookup props freshId = none) :
    handleInit cfg props bytes freshId now =
      some (mapInsert props freshId
          (ReceiverConnectionProperties.new
            ⟨freshId, max ic.checksum_size cfg.min_checksum_size,
              min ic.window_size cfg.max_window_size,
              min ic.packet_size cfg.max_packet_size⟩ now),
        some ⟨freshId, min ic.window_size cfg.max_window_size,
          min ic.packet_size cfg.max_packet_size,
          max ic.checksum_size cfg.min_checksum_size⟩) ∧
    (∀ k2, k2 ≠ freshId →
      mapLookup (mapInsert props freshId
        (ReceiverConnectionProperties.new
          ⟨freshId, max ic.checksum_size cfg.min_checksum_size,
            min ic.window_size cfg.max_window_size,
            min ic.packet_size cfg.max_packet_size⟩ now)) k2 = mapLookup props k2) := by
  constructor
  · unfold handleInit
    rw [hparse]
    dsimp only
    rw [hfull]
    dsimp only
    rw [if_neg (by rw [hfresh]; simp [hid])]
  · intro k2 hk2
    rw [mapLookup_insert, if_neg hk2]

/-- C8 counterexample: a receiver whose map already holds connection 5
receives a valid 20-byte Init carrying header id 5 (window 10, packet
size 20, checksum 0).  Contrary to the claim, the receiver does NOT
re-send the stored reply for id 5 and leave the map unchanged: it adds
a brand-new entry under the freshly drawn id 7 and replies with id 7,
which differs from the stored connection's id 5. -/
theorem C8_counterexample :
    handleInit ⟨15, 1500, 0⟩ [(5, ⟨⟨5, 0, 10, 20⟩, 0, 0, [], 0, false, none⟩)]
        [0, 0, 0, 5, 0, 0, 0, 0, 1, 0, 10, 0, 20, 0, 0, 0, 0, 0, 0, 0] 7 99 =
      some ([(7, ⟨⟨7, 0, 10, 20⟩, 0, 0, [], 99, false, none⟩),
          (5, ⟨⟨5, 0, 10, 20⟩, 0, 0, [], 0, false, none⟩)],
        some ⟨7, 10, 20, 0⟩) ∧
      (7 : Nat) ≠ 5 :=
  ⟨rfl, by decide⟩

/-- C8 witness: the amended statement instantiated at the same
concrete receiver state and Init packet. -/
theorem C8_witness :
    handleInit ⟨15, 1500, 0⟩ [(5, ⟨⟨5, 0, 10, 20⟩, 0, 0, [], 0, false, none⟩)]
        [0, 0, 0, 5, 0, 0, 0, 0, 1, 0, 10, 0, 20, 0, 0, 0, 0, 0, 0, 0] 7 99 =
      some (mapInsert [(5, ⟨⟨5, 0, 10, 20⟩, 0, 0, [], 0, false, none⟩)] 7
          (ReceiverConnectionProperties.new ⟨7, max 0 0, min 10 15, min 20 1500⟩ 99),
        some ⟨7, min 10 15, min 20 1500, max 0 0⟩) ∧
    (∀ k2, k2 ≠ 7 →
      mapLookup (mapInsert [(5, ⟨⟨5, 0, 10, 20⟩, 0, 0, [], 0, false, none⟩)] 7
        (ReceiverConnectionProperties.new ⟨7, max 0 0, min 10 15, min 20 1500⟩ 99)) k2 =
      mapLookup [(5, ⟨⟨5, 0, 10, 20⟩, 0, 0, [], 0, false, none⟩)] k2) :=
  C8_new_connection ⟨15, 1500, 0⟩ [(5, ⟨⟨5, 0, 10, 20⟩, 0, 0, [], 0, false, none⟩)]
    [0, 0, 0, 5, 0, 0, 0, 0, 1, 0, 10, 0, 20, 0, 0, 0, 0, 0, 0, 0] 7 99
    ⟨⟨5, 0, 0, Flag.Init⟩, 10, 20, 0⟩ ⟨⟨5, 0, 0, Flag.Init⟩, 10, 20, 0⟩
    rfl rfl (by decide) rfl

/-! ## Claim C1 -/

/-- C1 (corrected): decode ∘ encode is the identity for every packet
whose header flag agrees with its variant and whose fields fit their
wire widths, where for Init the claim's hypothesis `checksum_size ≤
packet_size` must be strengthened to `checksum_size + header.bin_size()
+ 6 ≤ packet_size`: otherwise the body `packet_size − checksum_size` is
shorter than the 15 header/parameter bytes and encoding panics (see the
counterexample).  Init packets decode to exactly the same four fields
(the zero padding is not part of the value), all other variants decode
to exactly the original value. -/
theorem C1_round_trip (p : Packet) (k : Nat)
    (hk : k ∈ ([0, 1, 4, 16, 64] : List Nat))
    (hflag : wellFlagged p = true) (hb : packetBounds p) :
    ∃ bytes, Packet.to_bin p k = some bytes ∧
      Packet.from_bin bytes k = some (Except.ok p) := by
  obtain ⟨body, hbody, hfb, hlen9⟩ : ∃ body, Packet.body p = some body ∧
      packetFromBin body = some (.ok p) ∧ 9 ≤ body.length := by
    cases p with
    | Data q =>
      have hf : q.header.flag = Flag.Data := by
        simpa [wellFlagged] using hflag
      obtain ⟨hid, hseq, hack⟩ := hb
      refine ⟨_, rfl, fromBin_data_to_bin q hf hid hseq hack, ?_⟩
      rw [List.length_append, header_to_bin_length]
      omega
    | Error q =>
      have hf : q.header.flag = Flag.Error := by
        simpa [wellFlagged] using hflag
      obtain ⟨hid, hseq, hack⟩ := hb
      have h1 := fromBin_error_to_bin q hf hid hseq hack
      rw [List.append_nil] at h1
      refine ⟨_, rfl, h1, ?_⟩
      rw [header_to_bin_length]
    | End q =>
      have hf : q.header.flag = Flag.End := by
        simpa [wellFlagged] using hflag
      obtain ⟨hid, hseq, hack⟩ := hb
      have h1 := fromBin_end_to_bin q hf hid hseq hack
      rw [List.append_nil] at h1
      refine ⟨_, rfl, h1, ?_⟩
      rw [header_to_bin_length]
    | Init q =>
      have hf : q.header.flag = Flag.Init := by
        simpa [wellFlagged] using hflag
      obtain ⟨⟨hid, hseq, hack⟩, hw, hp, hc, hps, hsz⟩ := hb
      refine ⟨_, ?_, fromBin_init_to_bin q hf hid hseq hack hw hp hc hsz, ?_⟩
      · unfold Packet.body
        dsimp only
        rw [if_pos ⟨hps, by omega⟩, if_neg (by omega)]
      · simp only [List.length_append, header_to_bin_length, be16,
          List.length_cons, List.length_nil, List.length_replicate]
        omega
  have hchklen : (if k > 0 then construct_checksum body k else []).length = k := by
    by_cases hk0 : k > 0
    · rw [if_pos hk0]
      exact construct_checksum_length body k hk0
    · rw [if_neg hk0]
      simp
      omega
  refine ⟨body ++ (if k > 0 then construct_checksum body k else []), ?_, ?_⟩
  · unfold Packet.to_bin
    rw [hbody]
    rfl
  · have hlen : (body ++ (if k > 0 then construct_checksum body k else [])).length =
        body.length + k := by
      rw [List.length_append, hchklen]
    unfold Packet.from_bin
    rw [if_neg (by omega)]
    dsimp only
    have hsub : (body ++ (if k > 0 then construct_checksum body k else [])).length - k =
        body.length := by omega
    have htake : (body ++ (if k > 0 then construct_checksum body k else [])).take
        ((body ++ (if k > 0 then construct_checksum body k else [])).length - k) =
        body := by
      rw [hsub]
      exact List.take_left body _
    have hdrop : (body ++ (if k > 0 then construct_checksum body k else [])).drop
        ((body ++ (if k > 0 then construct_checksum body k else [])).length - k) =
        (if k > 0 then construct_checksum body k else []) := by
      rw [hsub]
      exact List.drop_left body _
    rw [htake, hdrop, hfb]
    dsimp only
    by_cases hk0 : k > 0
    · rw [if_pos hk0, if_pos hk0, if_pos (checksums_match_self (construct_checksum body k))]
    · rw [if_neg hk0]

/-- C1 counterexample: two instances where the claim as stated fails.
First, the Init packet with `packet_size = 16`, `checksum_size = 16`
satisfies the claim's hypotheses (`header.bin_size() + 6 < packet_size`
and `checksum_size ≤ packet_size`) yet ENCODING PANICS -- the body
`packet_size − checksum_size` is 0 bytes and the 9-byte header write
indexes out of bounds -- so decoding the encoding cannot return Ok.
Second, a Data packet whose header flag field is `End` encodes fine but
decodes to an End packet, which is not equal to the original Data
packet (the claim quantifies over all packet values, including these). -/
theorem C1_counterexample :
    ((9 + 6 < 16 ∧ 16 ≤ 16) ∧
      Packet.to_bin (Packet.Init ⟨⟨0, 0, 0, Flag.Init⟩, 8, 16, 16⟩) 4 = none) ∧
    (Packet.to_bin (Packet.Data ⟨⟨0, 0, 0, Flag.End⟩, []⟩) 0 =
        some [0, 0, 0, 0, 0, 0, 0, 0, 8] ∧
      Packet.from_bin [0, 0, 0, 0, 0, 0, 0, 0, 8] 0 =
        some (Except.ok (Packet.End ⟨⟨0, 0, 0, Flag.End⟩⟩)) ∧
      Packet.End ⟨⟨0, 0, 0, Flag.End⟩⟩ ≠ Packet.Data ⟨⟨0, 0, 0, Flag.End⟩, []⟩) :=
  ⟨⟨⟨by decide, by decide⟩, rfl⟩, rfl, rfl, by decide⟩

/-- C1 witness: the amended round-trip instantiated at a Data packet
with payload `[1, 2, 3]` and checksum width 4. -/
theorem C1_witness :
    ∃ bytes, Packet.to_bin (Packet.Data ⟨⟨256, 5, 8, Flag.Data⟩, [1, 2, 3]⟩) 4 =
        some bytes ∧
      Packet.from_bin bytes 4 =
        some (Except.ok (Packet.Data ⟨⟨256, 5, 8, Flag.Data⟩, [1, 2, 3]⟩)) :=
  C1_round_trip (Packet.Data ⟨⟨256, 5, 8, Flag.Data⟩, [1, 2, 3]⟩) 4
    (by decide) (by decide) (by exact ⟨by decide, by decide, by decide⟩)

/-! ## Claim C6 -/

/-- C6 (confirmed): whenever `Packet::from_bin(b, k)` returns Ok, the
last `k` bytes of `b` equal `construct_checksum` of the prefix
`b[..len−k]`; `construct_checksum` computes exactly the claim's
XOR-fold (byte `i` is the XOR of all prefix bytes at offsets congruent
to `i` mod `k`); and width `k = 0` is accepted with the comparison
skipped entirely: decoding with `k = 0` can never fail with
`ChecksumNotMatch`. -/
theorem C6_checksum_of_ok :
    (∀ (b : List Nat) (k : Nat) (p : Packet),
      Packet.from_bin b k = some (Except.ok p) →
        b.drop (b.length - k) = construct_checksum (b.take (b.length - k)) k) ∧
    (∀ (data : List Nat) (k i : Nat), i < k →
      (construct_checksum data k).getD i 0 = xorResidue k i data) ∧
    (∀ b : List Nat, Packet.from_bin b 0 ≠
      some (Except.error ParsingError.ChecksumNotMatch)) := by
  refine ⟨?_, fun data k i hik => construct_checksum_getD data k i hik, ?_⟩
  · intro b k p h
    unfold Packet.from_bin at h
    split at h
    · exact absurd h (by simp)
    · rename_i hlen
      dsimp only at h
      cases hpb : packetFromBin (b.take (b.length - k)) with
      | none => rw [hpb] at h; exact absurd h (by simp)
      | some r =>
        rw [hpb] at h
        cases r with
        | error e =>
          cases e with
          | InvalidSize a c => exact absurd h (by simp)
          | ChecksumNotMatch => exact absurd h (by simp)
          | InvalidFlag c => exact absurd h (by simp)
        | ok pkt =>
          dsimp only at h
          by_cases hk : k > 0
          · rw [if_pos hk] at h
            by_cases hm : checksums_match (b.drop (b.length - k))
                (construct_checksum (b.take (b.length - k)) k) = true
            · refine checksums_match_eq _ _ ?_ hm
              rw [List.length_drop, construct_checksum_length _ _ hk]
              omega
            · rw [if_neg hm] at h
              exact absurd h (by simp)
          · have hk0 : k = 0 := by omega
            subst hk0
            rw [Nat.sub_zero, List.drop_length]
            unfold construct_checksum
            rw [if_pos rfl]
  · intro b h
    unfold Packet.from_bin at h
    split at h
    · exact absurd h (by simp)
    · dsimp only at h
      cases hpb : packetFromBin (b.take (b.length - 0)) with
      | none => rw [hpb] at h; exact absurd h (by simp)
      | some r =>
        rw [hpb] at h
        cases r with
        | error e =>
          cases e with
          | InvalidSize a c => exact absurd h (by simp)
          | ChecksumNotMatch => exact absurd hpb (packetFromBin_no_checksum_error _)
          | InvalidFlag c => exact absurd h (by simp)
        | ok pkt =>
          dsimp only at h
          exact absurd h (by simp)

/-- C6 witness: a 13-byte End packet with a 4-byte checksum decodes Ok,
and its trailing 4 bytes are the XOR fold of the 9-byte prefix. -/
theorem C6_witness :
    List.drop (13 - 4) [0, 0, 0, 0, 0, 0, 0, 0, 8, 8, 0, 0, 0] =
      construct_checksum (List.take (13 - 4) [0, 0, 0, 0, 0, 0, 0, 0, 8, 8, 0, 0, 0]) 4 :=
  C6_checksum_of_ok.1 [0, 0, 0, 0, 0, 0, 0, 0, 8, 8, 0, 0, 0] 4
    (Packet.End ⟨⟨0, 0, 0, Flag.End⟩⟩) rfl

/-! ## Claim C2 -/

/-- C2 (confirmed): for a receiver connection state satisfying the
reachability invariants -- the parts at every seq of the window-order
range `[next_write_position, window_position)` are present (the source
`.expect`s them), and the file so far is the concatenation `log.join`
of the previously flushed payloads with `log.length ≡
next_write_position (mod 2¹⁶)` -- `save_into_file` returns a state
where `next_write_position = window_position`, the flushed range holds
no key any more, and the file contents equal the concatenation of the
extended flush log, whose length is again congruent to the new
`next_write_position`: the j-th payload ever written was stored under
seq `j mod 2¹⁶`, i.e. the file is exactly the payloads for
seq 0, 1, ..., next_write_position − 1 in ascending wraparound order
with no gaps. -/
theorem C2_save_into_file (s : ReceiverConnectionProperties) (log : List (List Nat))
    (hnwp : s.next_write_position < 65536) (hwp : s.window_position < 65536)
    (hpresent : ∀ i, i < wdist s.next_write_position s.window_position →
      (mapLookup s.parts_received ((s.next_write_position + i) % 65536)).isSome = true)
    (hfile : s.file.getD [] = log.join)
    (hcount : log.length % 65536 = s.next_write_position) :
    ∃ s', save_into_file s = some s' ∧
      s'.next_write_position = s.window_position ∧
      (∀ i, i < wdist s.next_write_position s.window_position →
        mapLookup s'.parts_received ((s.next_write_position + i) % 65536) = none) ∧
      s'.file.getD [] = (log ++ flushedParts s.parts_received s.next_write_position
        (wdist s.next_write_position s.window_position)).join ∧
      (log ++ flushedParts s.parts_received s.next_write_position
        (wdist s.next_write_position s.window_position)).length % 65536 =
        s'.next_write_position := by
  have hdle : wdist s.next_write_position s.window_position ≤ 65535 := by
    have := wdist_lt s.next_write_position s.window_position
    omega
  obtain ⟨s', hloop, hnwp', _, hfile', hnone', _⟩ :=
    saveLoop_spec (wdist s.next_write_position s.window_position) hdle s hnwp hwp rfl
      hpresent
  refine ⟨s', hloop, hnwp', hnone', ?_, ?_⟩
  · rw [hfile', hfile]
    simp [List.join_append]
  · rw [List.length_append, flushedParts_length, hnwp']
    have := wdist_add_self s.next_write_position s.window_position hnwp hwp
    omega

/-- C2 witness: a connection with parts buffered for seqs 0 and 1,
window at 2, write position 0 and no file yet: `save_into_file` flushes
both payloads in seq order. -/
theorem C2_witness :
    ∃ s', save_into_file
        ⟨⟨9, 0, 4, 100⟩, 2, 0, [(0, [10]), (1, [20, 30])], 5, false, none⟩ = some s' ∧
      s'.next_write_position = 2 ∧
      (∀ i, i < 2 → mapLookup s'.parts_received ((0 + i) % 65536) = none) ∧
      s'.file.getD [] = ([] ++ flushedParts [(0, [10]), (1, [20, 30])] 0 2).join ∧
      ([] ++ flushedParts [(0, [10]), (1, [20, 30])] 0 2).length % 65536 =
        s'.next_write_position :=
  C2_save_into_file ⟨⟨9, 0, 4, 100⟩, 2, 0, [(0, [10]), (1, [20, 30])], 5, false, none⟩
    [] (by decide) (by decide) (by decide) rfl rfl

/-! ## Claim C5 -/

/-- C5 (corrected): provided the window size is at least 1 (as every
negotiated window is), acknowledging `a` with `(a − window_position)
mod 2¹⁶ < window_size` -- given that every seq of the inclusive range
`[window_position, a]` is a loaded key -- removes exactly those keys,
sets `window_position` to `(a + 1) mod 2¹⁶` and returns `true`; an `a`
outside the window is ignored: `acknowledge` returns `false` and the
state is unchanged.  For `window_size = 0` the claim fails (see the
counterexample): the degenerate `is_within_window` accepts every `a`,
so an out-of-window ack is processed rather than ignored. -/
theorem C5_acknowledge_amended (s : SenderConnectionProperties) (a : Nat)
    (hwp : s.window_position < 65536) (ha : a < 65536)
    (hws1 : 1 ≤ s.static_properties.window_size)
    (hws : s.static_properties.window_size < 65536) :
    (wdist s.window_position a < s.static_properties.window_size →
      (∀ i, i ≤ wdist s.window_position a →
        (mapLookup s.loaded_parts ((s.window_position + i) % 65536)).isSome = true) →
      ∃ parts, acknowledge s a =
          some ({ s with window_position := (a + 1) % 65536, loaded_parts := parts },
            true) ∧
        (∀ i, i ≤ wdist s.window_position a →
          mapLookup parts ((s.window_position + i) % 65536) = none) ∧
        (∀ k, (∀ i, i ≤ wdist s.window_position a →
            k ≠ (s.window_position + i) % 65536) →
          mapLookup parts k = mapLookup s.loaded_parts k)) ∧
    (¬ wdist s.window_position a < s.static_properties.window_size →
      acknowledge s a = some (s, false)) := by
  constructor
  · intro h hkeys
    have hwithin : is_within_window s.static_properties.window_size a
        s.window_position = true :=
      (is_within_window_iff _ _ _ hws ha hwp).mpr (Or.inl h)
    have hd : wdist s.window_position a ≤ 65534 := by omega
    have hcnt : wdist s.window_position ((a + 1) % 65536) =
        wdist s.window_position a + 1 :=
      wdist_succ_right s.window_position a hwp ha hd
    obtain ⟨m', hloop, hnone, hframe⟩ :=
      ackLoop_spec (wdist s.window_position a + 1) (by omega) s.window_position
        s.loaded_parts hwp (fun i hi => hkeys i (by omega))
    have hmoved : (a + 1) % 65536 ≠ s.window_position := by
      intro heq
      rw [heq, wdist_self s.window_position hwp] at hcnt
      omega
    refine ⟨m', ?_, fun i hi => hnone i (by omega), fun k hk =>
      hframe k (fun i hi => hk i (by omega))⟩
    unfold acknowledge
    rw [hwithin]
    simp only [Bool.true_eq_false, if_false]
    rw [hcnt, hloop]
    simp [hmoved]
  · intro h
    have hwithin : is_within_window s.static_properties.window_size a
        s.window_position = false := by
      rcases Bool.eq_false_or_eq_true (is_within_window s.static_properties.window_size
        a s.window_position) with hb | hb
      · rcases (is_within_window_iff _ _ _ hws ha hwp).mp hb with h2 | h2
        · exact absurd h2 h
        · omega
      · exact hb
    unfold acknowledge
    rw [hwithin]
    simp

/-- C5 counterexample: with `window_size = 0`, `window_position = 0`,
`loaded_parts = {0 ↦ part}` and `a = 0`, the ack is OUTSIDE the window
(`(0 − 0) mod 2¹⁶ = 0 < 0` fails), yet `acknowledge` does not return
`false` leaving the state unchanged -- it removes key 0, moves the
window to 1 and returns `true`, because the degenerate
`is_within_window` accepts everything. -/
theorem C5_counterexample :
    ¬ ((0 + 65536 - 0) % 65536 < 0) ∧
      acknowledge ⟨⟨1, 0, 0, 100⟩, 0, [(0, ⟨[5], 0, 0, false⟩)], false⟩ 0 =
        some (⟨⟨1, 0, 0, 100⟩, 1, [], false⟩, true) :=
  ⟨by decide, by decide⟩

/-- C5 witness: the amended theorem instantiated at window size 3,
window position 0, parts loaded for seqs 0 and 1, acknowledging 1. -/
theorem C5_witness :
    ∃ parts,
      acknowledge ⟨⟨1, 0, 3, 100⟩, 0,
          [(0, ⟨[5], 0, 0, false⟩), (1, ⟨[6], 0, 1, false⟩)], false⟩ 1 =
        some (⟨⟨1, 0, 3, 100⟩, 2, parts, false⟩, true) ∧
      (∀ i, i ≤ 1 → mapLookup parts ((0 + i) % 65536) = none) ∧
      (∀ k, (∀ i, i ≤ 1 → k ≠ (0 + i) % 65536) →
        mapLookup parts k =
          mapLookup [(0, (⟨[5], 0, 0, false⟩ : Part)), (1, ⟨[6], 0, 1, false⟩)] k) :=
  (C5_acknowledge_amended
    ⟨⟨1, 0, 3, 100⟩, 0, [(0, ⟨[5], 0, 0, false⟩), (1, ⟨[6], 0, 1, false⟩)], false⟩ 1
    (by decide) (by decide) (by decide) (by decide)).1 (by decide) (by decide)

end UDP
